import Mathlib

/-!
# Verification of the Movie-recommendation engine
  (content-based TF-IDF recommender)

Shallow embedding of the two implementations in the repository:

* `src/script.js` — the browser-side recommender ("script" namespace-free
  definitions prefixed `script…` / unprefixed client pipeline).
* `src/rwd expo 2/server.js` — the Express server recommender
  (definitions prefixed `server…`).

JavaScript numbers are modelled as real numbers (`ℝ`); machine floating
point is out of scope.  JavaScript objects used as string-keyed maps are
modelled as association lists `List (String × β)` that keep the JS
property-insertion order (an existing key keeps its position, a fresh key
is appended at the end).  JavaScript's stable `Array.prototype.sort` with
the comparator `(a, b) => b.score - a.score` is modelled by the stable
`List.insertionSort` with the total relation `b.2 ≤ a.2`.
`Array.prototype.slice(0, end)` is modelled by `jsSliceTo`, including the
end-relative meaning of a negative `end`.  Strings are Lean strings; the
lower-casing of `String.prototype.toLowerCase` is modelled per character
by `Char.toLower` (faithful on ASCII, which is all the tokenizers keep).
-/

/-- A character kept by both tokenizers after lower-casing: the regexes
`[^a-z0-9\s]` (script.js, followed by a split on whitespace) and
`[^a-z0-9]+` (server.js) both make the maximal runs of `[a-z0-9]`
characters the tokens of the text. -/
def tokChar (c : Char) : Bool :=
  ('a' ≤ c && c ≤ 'z') || ('0' ≤ c && c ≤ '9')

/-- Splits a character list into the maximal runs of `tokChar` characters,
accumulating the current run (in reverse) in `cur`.  This is the composite
of script.js's `replace(/[^a-z0-9\s]/g, ' ')`, `split(/\s+/)`,
`filter(Boolean)` (every non-token character, whitespace included, acts as
a separator and empty pieces are dropped), and likewise of server.js's
`split(/[^a-z0-9]+/g)` followed by `filter(Boolean)`. -/
def splitRunsAux : List Char → List Char → List (List Char)
  | [], cur => if cur = [] then [] else [cur.reverse]
  | c :: r, cur =>
    if tokChar c then splitRunsAux r (c :: cur)
    else if cur = [] then splitRunsAux r [] else cur.reverse :: splitRunsAux r []

def splitRuns (cs : List Char) : List (List Char) :=
  splitRunsAux cs []

/-- `text.toLowerCase()` (per-character; faithful on ASCII). -/
def lowerStr (s : String) : String :=
  ⟨s.data.map Char.toLower⟩

/-- script.js `tokenize`: lowercase, replace `[^a-z0-9\s]` by a space,
split on whitespace runs, drop empty tokens (the final `map(w => w.trim())`
is the identity on the split pieces, which contain no whitespace). -/
def scriptTokenize (s : String) : List String :=
  (splitRuns (s.data.map Char.toLower)).map (fun cs => (⟨cs⟩ : String))

/-- JavaScript error raised by the runtime, e.g. calling `.toLowerCase()`
on `null`. -/
inductive JsErr where
  | typeError
deriving DecidableEq

/-- script.js `tokenize` as callable on a string-or-null argument
(`Option String`): on `null` the very first step `text.toLowerCase()`
throws a `TypeError`. -/
def scriptTokenizeJS : Option String → Except JsErr (List String)
  | none => Except.error JsErr.typeError
  | some s => Except.ok (scriptTokenize s)

/-- server.js `tokenize`: `if (!text) return []` (null and the empty
string are falsy), then lowercase and split on `[^a-z0-9]+`. -/
def serverTokenize : Option String → List String
  | none => []
  | some s =>
    if s = "" then []
    else (splitRuns (s.data.map Char.toLower)).map (fun cs => (⟨cs⟩ : String))

/-- server.js `STOPWORDS`. -/
def STOPWORDS : List String :=
  ["the", "and", "a", "an", "of", "in", "on", "to", "for", "with", "is",
   "are", "by", "from", "that", "this", "it", "as", "be", "was", "which"]

/-- server.js `tokenizeFiltered`. -/
def serverTokenizeFiltered (t : Option String) : List String :=
  (serverTokenize t).filter (fun w => !(STOPWORDS.contains w))

/-- A record of the client corpus `movies.json` as used by script.js. -/
structure Movie where
  id : Nat
  title : String
  description : String
  genres : List String
deriving DecidableEq

def defaultMovie : Movie := ⟨0, "", "", []⟩

/-- A record of the server corpus, as used by server.js `buildIndex`. -/
structure SMovie where
  id : Nat
  title : String
  genres : List String
  keywords : List String
  desc : String
deriving DecidableEq

/-! ## JS-object association maps

`bumpN` / `bump` model `obj[k] = (obj[k] || 0) + x`: an existing key keeps
its position, a fresh key is appended (JS property order).  `alookup`
models property read `obj[k]` (`none` = `undefined`). -/

def alookup {β : Type} (k : String) : List (String × β) → Option β
  | [] => none
  | p :: r => if p.1 = k then some p.2 else alookup k r

def bumpN (m : List (String × Nat)) (k : String) : List (String × Nat) :=
  match m with
  | [] => [(k, 1)]
  | p :: r => if p.1 = k then (p.1, p.2 + 1) :: r else p :: bumpN r k

def bump (m : List (String × ℝ)) (k : String) (x : ℝ) : List (String × ℝ) :=
  match m with
  | [] => [(k, x)]
  | p :: r => if p.1 = k then (p.1, p.2 + x) :: r else p :: bump r k x

/-- Term-frequency object: `tokens.forEach(t => tf[t] = (tf[t] || 0) + 1)`
(both implementations build it this way). -/
def tfList (toks : List String) : List (String × Nat) :=
  toks.foldl bumpN []

/-- JS `Set.prototype.add` on a set represented as its insertion-ordered
element list. -/
def jsSetAdd (s : List String) (t : String) : List String :=
  if t ∈ s then s else s ++ [t]

/-- JS `Array.prototype.slice(0, end)`: a negative `end` counts from the
end of the array (`max(len + end, 0)`), a large `end` is clamped. -/
def jsSliceTo {α : Type} (l : List α) (n : Int) : List α :=
  if n < 0 then l.take (l.length + n).toNat else l.take n.toNat

/-! ## script.js pipeline

The global mutable state of script.js (`movies`, `vocab`, `docsTokens`,
`idf`, `tfidfVectors`, `genreIndex`) is threaded explicitly: every stage
is a function of the corpus `ms : List Movie`. -/

/-- script.js `buildVocabAndTokens` (the `docsTokens` part). -/
def scriptDocsTokens (ms : List Movie) : List (List String) :=
  ms.map (fun m => scriptTokenize (m.title ++ " " ++ m.description))

/-- script.js `buildVocabAndTokens` (the `vocab` part): every token of
every document is `add`ed to the JS `Set`, in document order. -/
def scriptVocab (ms : List Movie) : List String :=
  (scriptDocsTokens ms).foldl (fun s toks => toks.foldl jsSetAdd s) []

/-- Document frequency of `t` in script.js `computeIdf`: the per-document
`seen` set increments `df[t]` once per document containing `t`. -/
def scriptDf (ms : List Movie) (t : String) : Nat :=
  ((scriptDocsTokens ms).filter (fun toks => t ∈ toks)).length

/-- The value stored by script.js `computeIdf`:
`Math.log((N + 1) / (df[t] + 1)) + 1`. -/
noncomputable def scriptIdfVal (ms : List Movie) (t : String) : ℝ :=
  Real.log (((scriptDocsTokens ms).length + 1) / (scriptDf ms t + 1)) + 1

/-- script.js `computeIdf`: `for (const t of vocab) idf[t] = …`. -/
noncomputable def scriptIdfMap (ms : List Movie) : List (String × ℝ) :=
  (scriptVocab ms).map (fun t => (t, scriptIdfVal ms t))

/-- script.js `computeTfidfVectors`: for each document,
`vec[t] = (tf[t] / tokens.length) * idf[t]` over the keys of `tf`.
(The `idf[t]` read is modelled with default `0`; for a document term `t`
the key is always present.)  NOTE: no normalization happens here — the
stored vectors are the raw tf-idf maps. -/
noncomputable def scriptTfidfVectors (ms : List Movie) : List (List (String × ℝ)) :=
  (scriptDocsTokens ms).map (fun toks =>
    (tfList toks).map (fun p =>
      (p.1, ((p.2 : ℝ) / (toks.length : ℝ)) * ((alookup p.1 (scriptIdfMap ms)).getD 0))))

/-- script.js `buildGenreIndex`: insertion-ordered list of the distinct
genre strings (only key membership and iteration order are used). -/
def genreIndexList (ms : List Movie) : List String :=
  ms.foldl (fun acc m => m.genres.foldl jsSetAdd acc) []

/-- The dedicated dimension key for a genre:
`` `__genre__${g.toLowerCase()}` ``. -/
def genreKey (g : String) : String :=
  ⟨"__genre__".data ++ (g.data.map Char.toLower)⟩

/-- script.js `genreWeight = 1.2`. -/
noncomputable def genreWeight : ℝ := 1.2

/-- script.js `movieFeatureVector`: shallow copy of `tfidfVectors[index]`
plus `vec[key] = (vec[key] || 0) + genreWeight` for each genre of the
movie. -/
noncomputable def movieFeatureVector (ms : List Movie) (i : Nat) : List (String × ℝ) :=
  ((ms.getD i defaultMovie).genres).foldl
    (fun v g => bump v (genreKey g) genreWeight)
    ((scriptTfidfVectors ms).getD i [])

/-- The lexical loop of script.js `queryToVector`:
`for (const t in tf) if (idf[t]) vec[t] = (tf[t] / tokens.length) * idf[t]`.
JS truthiness of `idf[t]`: the key must be present and its value nonzero. -/
noncomputable def queryLexVec (ms : List Movie) (q : String) : List (String × ℝ) :=
  (tfList (scriptTokenize q)).filterMap (fun p =>
    match alookup p.1 (scriptIdfMap ms) with
    | none => none
    | some w =>
      if w = 0 then none
      else some (p.1, ((p.2 : ℝ) / ((scriptTokenize q).length : ℝ)) * w))

/-- Bool substring test: `prefB n h` = `n` is a prefix of `h`. -/
def prefB : List Char → List Char → Bool
  | [], _ => true
  | _ :: _, [] => false
  | a :: as, b :: bs => a == b && prefB as bs

/-- Bool substring test mirroring `String.prototype.includes`. -/
def subB : List Char → List Char → Bool
  | n, [] => prefB n []
  | n, c :: r => prefB n (c :: r) || subB n r

/-- `hay.includes(sub)`. -/
def strIncludes (hay sub : String) : Bool :=
  subB sub.data hay.data

/-- script.js `queryToVector`: the lexical vector plus, for each genre of
the index whose (lower-cased) name occurs in the lower-cased query,
`vec[key] = (vec[key] || 0) + genreWeight`. -/
noncomputable def queryToVector (ms : List Movie) (q : String) : List (String × ℝ) :=
  (genreIndexList ms).foldl
    (fun v g => if strIncludes (lowerStr q) (lowerStr g) then bump v (genreKey g) genreWeight else v)
    (queryLexVec ms q)

/-- script.js `dot` over sparse vectors:
`for (const k in a) if (b[k]) s += a[k] * b[k]` (truthiness of `b[k]`:
present and nonzero). -/
noncomputable def sdot (a b : List (String × ℝ)) : ℝ :=
  a.foldl (fun s p =>
    match alookup p.1 b with
    | none => s
    | some w => if w = 0 then s else s + p.2 * w) 0

/-- script.js `norm`: the Euclidean norm of a sparse vector. -/
noncomputable def snorm (v : List (String × ℝ)) : ℝ :=
  Real.sqrt (v.foldl (fun s p => s + p.2 * p.2) 0)

/-- script.js `cosine`: `if (!na || !nb) return 0` (a zero norm is falsy),
else the normalized dot product. -/
noncomputable def scosine (a b : List (String × ℝ)) : ℝ :=
  if snorm a = 0 ∨ snorm b = 0 then 0 else sdot a b / (snorm a * snorm b)

/-- The comparator `(a, b) => b.score - a.score` orders entries by
descending score. -/
def descScore : (Nat × ℝ) → (Nat × ℝ) → Prop := fun a b => b.2 ≤ a.2

noncomputable instance : DecidableRel descScore :=
  fun a b => inferInstanceAs (Decidable (b.2 ≤ a.2))

instance : IsTotal (Nat × ℝ) descScore :=
  ⟨fun a b => le_total b.2 a.2⟩

instance : IsTrans (Nat × ℝ) descScore :=
  ⟨fun _ _ _ h1 h2 => le_trans h2 h1⟩

/-- JS stable `Array.prototype.sort((a, b) => b.score - a.score)`:
a stable sort into descending-score order. -/
noncomputable def sortScores (l : List (Nat × ℝ)) : List (Nat × ℝ) :=
  List.insertionSort descScore l

/-- script.js `recommendByMovieId`: unknown id returns `[]`; the source
record itself is given the sentinel score `-1` (comment: "skip itself")
but stays in the scored array; sort, `slice(0, topN)`, and return
`(movie id, score)` pairs. -/
noncomputable def recommendByMovieId (ms : List Movie) (id : Nat) (topN : Int) :
    List (Nat × ℝ) :=
  match ms.findIdx? (fun m => m.id = id) with
  | none => []
  | some idx =>
    let baseVec := movieFeatureVector ms idx
    let scores := (List.range ms.length).map (fun i =>
      if i = idx then (i, (-1 : ℝ))
      else (i, scosine baseVec (movieFeatureVector ms i)))
    (jsSliceTo (sortScores scores) topN).map (fun s => ((ms.getD s.1 defaultMovie).id, s.2))

/-- script.js `recommendByQuery`: scores every movie against the query
vector (no entry is ever dropped, not even score 0), sorts, truncates. -/
noncomputable def recommendByQuery (ms : List Movie) (q : String) (topN : Int) :
    List (Nat × ℝ) :=
  let qv := queryToVector ms q
  let scores := (List.range ms.length).map (fun i =>
    (i, scosine qv (movieFeatureVector ms i)))
  (jsSliceTo (sortScores scores) topN).map (fun s => ((ms.getD s.1 defaultMovie).id, s.2))

/-! ## server.js pipeline -/

/-- The combined text of a record in server.js `buildIndex`:
`[title, genres.join(' '), keywords.join(' '), desc].join(' ')`.
NOTE: the genre strings are folded into the lexical text — there is no
separate genre dimension on the server. -/
def serverDocText (m : SMovie) : String :=
  String.intercalate " "
    [m.title, String.intercalate " " m.genres, String.intercalate " " m.keywords, m.desc]

/-- server.js `buildIndex`: the tokenized documents. -/
def serverDocs (ms : List SMovie) : List (List String) :=
  ms.map (fun m => serverTokenizeFiltered (some (serverDocText m)))

/-- Document frequency on the server (per-document `seen` set). -/
def serverDf (ms : List SMovie) (t : String) : Nat :=
  ((serverDocs ms).filter (fun toks => t ∈ toks)).length

/-- The distinct terms of all documents in insertion order
(= `Object.keys(df)`). -/
def serverAllTerms (ms : List SMovie) : List String :=
  (serverDocs ms).foldl (fun s toks => toks.foldl jsSetAdd s) []

/-- server.js `vocabulary = Object.keys(df).sort()`: the distinct terms in
lexicographic order. -/
def serverVocabulary (ms : List SMovie) : List String :=
  List.insertionSort (fun a b : String => a ≤ b) (serverAllTerms ms)

/-- The idf value of a term on the server:
`Math.log(N / (1 + df[t])) + 1`. -/
noncomputable def serverIdfVal (ms : List SMovie) (t : String) : ℝ :=
  Real.log ((ms.length : ℝ) / (1 + (serverDf ms t : ℝ))) + 1

/-- server.js `idf = vocabulary.map(t => Math.log(N / (1 + df[t])) + 1)`. -/
noncomputable def serverIdf (ms : List SMovie) : List ℝ :=
  (serverVocabulary ms).map (serverIdfVal ms)

/-- The dense pre-normalization tf-idf vector of a document (server.js):
starting from a zero `Float64Array(vocabulary.length)`, each `tf` entry
`(t, cnt)` writes `(1 + Math.log(cnt)) * idf[termIndex[t]]` at position
`termIndex[t]` (entries whose term is not in the vocabulary are skipped:
`if (idx === undefined) continue`). -/
noncomputable def serverPreVec (ms : List SMovie) (toks : List String) : List ℝ :=
  (tfList toks).foldl (fun v p =>
    if p.1 ∈ serverVocabulary ms then
      v.set ((serverVocabulary ms).indexOf p.1)
        ((1 + Real.log (p.2 : ℝ)) * ((serverIdf ms).getD ((serverVocabulary ms).indexOf p.1) 0))
    else v)
    (List.replicate (serverVocabulary ms).length 0)

/-- Sum of squares of a dense vector (the `norm` accumulation loop). -/
noncomputable def sumSq (v : List ℝ) : ℝ :=
  v.foldl (fun s x => s + x * x) 0

/-- One entry of server.js `docTfIdf`: `{ id, vec, norm }`. -/
structure DocEntry where
  id : Nat
  vec : List ℝ
  norm : ℝ

/-- server.js `buildIndex`, normalization step:
`norm = Math.sqrt(norm) || 1` (so a zero norm is replaced by `1`), then
every component is divided by it.  One entry per movie, in corpus order. -/
noncomputable def serverDocTfIdf (ms : List SMovie) : List DocEntry :=
  ms.map (fun m =>
    let pre := serverPreVec ms (serverTokenizeFiltered (some (serverDocText m)))
    let n := Real.sqrt (sumSq pre)
    let n' := if n = 0 then 1 else n
    ⟨m.id, pre.map (fun x => x / n'), n'⟩)

/-- server.js `cosine` on dense vectors: dot product up to the shorter
length (`Math.min(vecA.length, vecB.length)`). -/
noncomputable def dcosine (a b : List ℝ) : ℝ :=
  (a.zip b).foldl (fun s p => s + p.1 * p.2) 0

/-- `Number(x.toFixed(4))`: rounding to 4 decimal places. -/
noncomputable def jsToFixed4 (x : ℝ) : ℝ :=
  ((round (x * 10000) : ℤ) : ℝ) / 10000

/-- server.js `recommendFor`: unknown id returns `[]`; the base record is
skipped with `continue` (true self-exclusion); every other indexed record
is scored; sort descending, `slice(0, topN)`, then each result carries
`Number(score.toFixed(4))` (the movie found again by its id; we keep the
`(id, rounded score)` pair). -/
noncomputable def serverRecommendFor (ms : List SMovie) (id : Nat) (topN : Int) :
    List (Nat × ℝ) :=
  let index := serverDocTfIdf ms
  match index.findIdx? (fun d => d.id = id) with
  | none => []
  | some idx =>
    let base := index.getD idx ⟨0, [], 1⟩
    let scores := ((List.range index.length).filter (fun i => i ≠ idx)).map (fun i =>
      let other := index.getD i ⟨0, [], 1⟩
      (other.id, dcosine base.vec other.vec))
    (jsSliceTo (sortScores scores) topN).map (fun s => (s.1, jsToFixed4 s.2))

/-! ## Association-map lemmas -/

theorem alookup_bumpN (m : List (String × Nat)) (k k' : String) :
    alookup k (bumpN m k') =
      if k' = k then some ((alookup k m).getD 0 + 1) else alookup k m := by
  induction m with
  | nil =>
    by_cases h : k' = k <;> simp [bumpN, alookup, h]
  | cons p r ih =>
    by_cases hp : p.1 = k'
    · by_cases hk : k' = k <;> simp [bumpN, alookup, hp, hk, ih]
    · have hbn : bumpN (p :: r) k' = p :: bumpN r k' := by simp [bumpN, hp]
      rw [hbn]
      by_cases hk : p.1 = k
      · have hne : ¬ k' = k := fun h => hp (hk.trans h.symm)
        simp [alookup, hk, hne]
      · simp [alookup, hk, ih]

theorem alookup_bump (m : List (String × ℝ)) (k k' : String) (x : ℝ) :
    alookup k (bump m k' x) =
      if k' = k then some ((alookup k m).getD 0 + x) else alookup k m := by
  induction m with
  | nil =>
    by_cases h : k' = k <;> simp [bump, alookup, h]
  | cons p r ih =>
    by_cases hp : p.1 = k'
    · by_cases hk : k' = k <;> simp [bump, alookup, hp, hk, ih]
    · have hbn : bump (p :: r) k' x = p :: bump r k' x := by simp [bump, hp]
      rw [hbn]
      by_cases hk : p.1 = k
      · have hne : ¬ k' = k := fun h => hp (hk.trans h.symm)
        simp [alookup, hk, hne]
      · simp [alookup, hk, ih]

theorem alookup_foldl_bumpN (t : String) (toks : List String) :
    ∀ m : List (String × Nat),
      alookup t (toks.foldl bumpN m) =
        if t ∈ toks ∨ (alookup t m).isSome then
          some ((alookup t m).getD 0 + toks.count t) else none := by
  induction toks with
  | nil =>
    intro m
    rcases h : alookup t m with _ | c <;> simp [h]
  | cons t' r ih =>
    intro m
    rw [List.foldl_cons, ih (bumpN m t')]
    by_cases ht : t' = t
    · have hb : alookup t (bumpN m t') = some ((alookup t m).getD 0 + 1) := by
        rw [alookup_bumpN, if_pos ht]
      have hcnt : (t' :: r).count t = r.count t + 1 := by
        simp [List.count_cons, ht]
      have hmem : t ∈ t' :: r := by rw [ht]; exact List.mem_cons_self t r
      rw [hb, hcnt]
      have harith : ((alookup t m).getD 0 + 1) + List.count t r
          = (alookup t m).getD 0 + (List.count t r + 1) := by omega
      simp [hmem, harith]
    · have hrw : alookup t (bumpN m t') = alookup t m := by
        rw [alookup_bumpN, if_neg ht]
      rw [hrw]
      have hne2 : ¬ (t = t') := fun h => ht h.symm
      have hmem : (t ∈ t' :: r) ↔ (t ∈ r) := by
        simp [List.mem_cons, hne2]
      have hcnt : (t' :: r).count t = r.count t := by
        simp [List.count_cons, hne2]
      rw [hcnt]
      by_cases hr : t ∈ r ∨ (alookup t m).isSome
      · rw [if_pos hr, if_pos]
        rcases hr with hr | hr
        · exact Or.inl (List.mem_cons_of_mem _ hr)
        · exact Or.inr hr
      · rw [if_neg hr, if_neg]
        intro hc
        rcases hc with hc | hc
        · rcases List.mem_cons.mp hc with hc | hc
          · exact ht hc.symm
          · exact hr (Or.inl hc)
        · exact hr (Or.inr hc)

theorem alookup_tfList (t : String) (toks : List String) :
    alookup t (tfList toks) = if t ∈ toks then some (toks.count t) else none := by
  unfold tfList
  rw [alookup_foldl_bumpN]
  simp [alookup]

theorem alookup_eq_some_mem {β : Type} {k : String} {v : β} {m : List (String × β)} :
    alookup k m = some v → (k, v) ∈ m := by
  induction m with
  | nil => intro h; simp [alookup] at h
  | cons p r ih =>
    intro h
    by_cases hp : p.1 = k
    · obtain ⟨a, b⟩ := p
      simp only [alookup, if_pos hp] at h
      injection h with h
      subst h
      have ha : a = k := hp
      subst ha
      exact List.mem_cons_self _ _
    · simp only [alookup, if_neg hp] at h
      exact List.mem_cons_of_mem _ (ih h)

theorem alookup_eq_none_iff {β : Type} {k : String} {m : List (String × β)} :
    alookup k m = none ↔ k ∉ m.map Prod.fst := by
  induction m with
  | nil => simp [alookup]
  | cons p r ih =>
    by_cases hp : p.1 = k
    · simp [alookup, hp]
    · have hk : ¬ k = p.1 := fun h => hp h.symm
      simp [alookup, hp, ih, hk]

theorem mem_of_keys_nodup {β : Type} {p : String × β} {m : List (String × β)}
    (hn : (m.map Prod.fst).Nodup) (hp : p ∈ m) :
    alookup p.1 m = some p.2 := by
  induction m with
  | nil => cases hp
  | cons q r ih =>
    simp only [List.map_cons, List.nodup_cons] at hn
    rcases List.mem_cons.mp hp with h | h
    · subst h; simp [alookup]
    · have hne : q.1 ≠ p.1 := by
        intro he
        exact hn.1 (he ▸ List.mem_map_of_mem Prod.fst h)
      simp only [alookup, if_neg hne]
      exact ih hn.2 h

theorem map_fst_bumpN (m : List (String × Nat)) (k : String) :
    (bumpN m k).map Prod.fst =
      if k ∈ m.map Prod.fst then m.map Prod.fst else m.map Prod.fst ++ [k] := by
  induction m with
  | nil => simp [bumpN]
  | cons p r ih =>
    by_cases hp : p.1 = k
    · simp [bumpN, hp]
    · have hkp : ¬ k = p.1 := fun h => hp h.symm
      simp only [bumpN, if_neg hp, List.map_cons, ih, List.mem_cons]
      by_cases hk : k ∈ r.map Prod.fst
      · simp [hk, hkp]
      · simp [hk, hkp]

theorem keys_nodup_bumpN (m : List (String × Nat)) (k : String)
    (hn : (m.map Prod.fst).Nodup) : ((bumpN m k).map Prod.fst).Nodup := by
  rw [map_fst_bumpN]
  by_cases hk : k ∈ m.map Prod.fst
  · simpa [hk]
  · simp only [if_neg hk]
    exact List.Nodup.append hn (List.nodup_singleton k) (by simpa using hk)

theorem keys_nodup_tfList (toks : List String) :
    ((tfList toks).map Prod.fst).Nodup := by
  unfold tfList
  suffices h : ∀ m : List (String × Nat), (m.map Prod.fst).Nodup →
      ((toks.foldl bumpN m).map Prod.fst).Nodup by
    exact h [] (by simp)
  induction toks with
  | nil => intro m hm; simpa
  | cons t r ih =>
    intro m hm
    exact ih _ (keys_nodup_bumpN m t hm)

theorem mem_tfList_iff {p : String × Nat} {toks : List String} :
    p ∈ tfList toks ↔ (p.1 ∈ toks ∧ p.2 = toks.count p.1) := by
  constructor
  · intro hp
    have := mem_of_keys_nodup (keys_nodup_tfList toks) hp
    rw [alookup_tfList] at this
    by_cases h : p.1 ∈ toks
    · rw [if_pos h] at this
      exact ⟨h, (Option.some_injective _ this.symm)⟩
    · rw [if_neg h] at this; cases this
  · rintro ⟨h1, h2⟩
    have : alookup p.1 (tfList toks) = some (toks.count p.1) := by
      rw [alookup_tfList, if_pos h1]
    cases p
    simp only at h1 h2
    subst h2
    exact alookup_eq_some_mem this

theorem alookup_graph {β : Type} (f : String → β) (t : String) (l : List String) :
    alookup t (l.map fun s => (s, f s)) = if t ∈ l then some (f t) else none := by
  induction l with
  | nil => simp [alookup]
  | cons a r ih =>
    by_cases h : a = t
    · subst h; simp [alookup]
    · have h2 : ¬ t = a := fun hh => h hh.symm
      simp [alookup, h, ih, h2]

/-! ## JS-Set fold lemmas -/

theorem mem_foldl_jsSetAdd (t : String) (ls : List String) :
    ∀ acc : List String, t ∈ ls.foldl jsSetAdd acc ↔ t ∈ acc ∨ t ∈ ls := by
  induction ls with
  | nil => intro acc; simp
  | cons a r ih =>
    intro acc
    rw [List.foldl_cons, ih]
    have hstep : (t ∈ jsSetAdd acc a) ↔ (t ∈ acc ∨ t = a) := by
      unfold jsSetAdd
      by_cases ha : a ∈ acc
      · simp only [if_pos ha]
        constructor
        · exact Or.inl
        · rintro (h | h)
          · exact h
          · exact h ▸ ha
      · simp [if_neg ha]
    rw [hstep]
    simp only [List.mem_cons]
    tauto

theorem nodup_foldl_jsSetAdd (ls : List String) :
    ∀ acc : List String, acc.Nodup → (ls.foldl jsSetAdd acc).Nodup := by
  induction ls with
  | nil => intro acc h; simpa
  | cons a r ih =>
    intro acc h
    rw [List.foldl_cons]
    apply ih
    unfold jsSetAdd
    by_cases ha : a ∈ acc
    · simpa [ha]
    · rw [if_neg ha]
      exact List.Nodup.append h (List.nodup_singleton a) (by simpa using ha)

theorem mem_foldl_setfold (t : String) (ll : List (List String)) :
    ∀ acc : List String,
      t ∈ ll.foldl (fun s toks => toks.foldl jsSetAdd s) acc ↔
        t ∈ acc ∨ ∃ toks ∈ ll, t ∈ toks := by
  induction ll with
  | nil => intro acc; simp
  | cons d r ih =>
    intro acc
    rw [List.foldl_cons, ih, mem_foldl_jsSetAdd]
    constructor
    · rintro ((h | h) | ⟨toks, hm, ht⟩)
      · exact Or.inl h
      · exact Or.inr ⟨d, List.mem_cons_self d r, h⟩
      · exact Or.inr ⟨toks, List.mem_cons_of_mem _ hm, ht⟩
    · rintro (h | ⟨toks, hm, ht⟩)
      · exact Or.inl (Or.inl h)
      · rcases List.mem_cons.mp hm with hh | hh
        · exact Or.inl (Or.inr (hh ▸ ht))
        · exact Or.inr ⟨toks, hh, ht⟩

theorem nodup_foldl_setfold (ll : List (List String)) :
    ∀ acc : List String, acc.Nodup →
      (ll.foldl (fun s toks => toks.foldl jsSetAdd s) acc).Nodup := by
  induction ll with
  | nil => intro acc h; simpa
  | cons d r ih =>
    intro acc h
    exact ih _ (nodup_foldl_jsSetAdd d acc h)

theorem mem_scriptVocab_iff {t : String} {ms : List Movie} :
    t ∈ scriptVocab ms ↔ ∃ toks ∈ scriptDocsTokens ms, t ∈ toks := by
  unfold scriptVocab
  rw [mem_foldl_setfold]
  simp

theorem nodup_scriptVocab (ms : List Movie) : (scriptVocab ms).Nodup :=
  nodup_foldl_setfold _ _ (List.nodup_nil)

theorem mem_serverAllTerms_iff {t : String} {ms : List SMovie} :
    t ∈ serverAllTerms ms ↔ ∃ toks ∈ serverDocs ms, t ∈ toks := by
  unfold serverAllTerms
  rw [mem_foldl_setfold]
  simp

theorem mem_serverVocabulary_iff {t : String} {ms : List SMovie} :
    t ∈ serverVocabulary ms ↔ ∃ toks ∈ serverDocs ms, t ∈ toks := by
  unfold serverVocabulary
  rw [(List.perm_insertionSort _ _).mem_iff]
  exact mem_serverAllTerms_iff

theorem nodup_serverVocabulary (ms : List SMovie) : (serverVocabulary ms).Nodup :=
  ((List.perm_insertionSort _ _).nodup_iff).mpr (nodup_foldl_setfold _ _ List.nodup_nil)

/-! ## Tokenizer character lemmas -/

theorem splitRunsAux_sound (cs : List Char) :
    ∀ cur : List Char, (∀ c ∈ cur, tokChar c) →
      ∀ t ∈ splitRunsAux cs cur, t ≠ [] ∧ ∀ c ∈ t, tokChar c := by
  induction cs with
  | nil =>
    intro cur hcur t ht
    unfold splitRunsAux at ht
    by_cases h : cur = []
    · simp [h] at ht
    · rw [if_neg h] at ht
      rcases List.mem_singleton.mp ht with rfl
      refine ⟨by simpa using h, ?_⟩
      intro c hc
      exact hcur c (by simpa using hc)
  | cons c r ih =>
    intro cur hcur t ht
    unfold splitRunsAux at ht
    by_cases hc : tokChar c
    · rw [if_pos hc] at ht
      refine ih (c :: cur) ?_ t ht
      intro x hx
      rcases List.mem_cons.mp hx with rfl | hx
      · exact hc
      · exact hcur x hx
    · rw [if_neg hc] at ht
      by_cases hcur0 : cur = []
      · rw [if_pos hcur0] at ht
        exact ih [] (by simp) t ht
      · rw [if_neg hcur0] at ht
        rcases List.mem_cons.mp ht with rfl | ht
        · refine ⟨by simpa using hcur0, ?_⟩
          intro x hx
          exact hcur x (by simpa using hx)
        · exact ih [] (by simp) t ht

theorem scriptTokenize_sound {t : String} {s : String} (ht : t ∈ scriptTokenize s) :
    t.data ≠ [] ∧ ∀ c ∈ t.data, tokChar c := by
  unfold scriptTokenize splitRuns at ht
  rcases List.mem_map.mp ht with ⟨cs, hcs, rfl⟩
  exact splitRunsAux_sound _ [] (by simp) cs hcs

theorem serverTokenize_sound {t : String} {o : Option String} (ht : t ∈ serverTokenize o) :
    t.data ≠ [] ∧ ∀ c ∈ t.data, tokChar c := by
  rcases o with _ | s
  · simp [serverTokenize] at ht
  · by_cases h : s = ""
    · rw [show serverTokenize (some s) = [] by simp [serverTokenize, h]] at ht
      cases ht
    · have hrw : serverTokenize (some s)
          = (splitRuns (s.data.map Char.toLower)).map (fun cs => (⟨cs⟩ : String)) := by
        simp [serverTokenize, h]
      rw [hrw] at ht
      unfold splitRuns at ht
      rcases List.mem_map.mp ht with ⟨cs, hcs, rfl⟩
      exact splitRunsAux_sound _ [] (by simp) cs hcs

/-- The genre keys live in a namespace disjoint from the tokens: a token
never starts with an underscore. -/
theorem token_ne_genreKey {t : String} (hne : t.data ≠ [])
    (hch : ∀ c ∈ t.data, tokChar c) (g : String) : t ≠ genreKey g := by
  intro he
  rcases hd : t.data with _ | ⟨c, cs⟩
  · exact hne hd
  · have : t.data = (genreKey g).data := by rw [he]
    rw [hd] at this
    have hc : c = '_' := by
      have := congrArg (fun l => l.headI) this
      simpa [genreKey] using this
    have := hch c (by rw [hd]; exact List.mem_cons_self _ _)
    rw [hc] at this
    simp [tokChar] at this

/-! ## Sum-of-squares lemmas -/

theorem foldl_sq_eq (v : List ℝ) : ∀ a : ℝ,
    v.foldl (fun s x => s + x * x) a = a + (v.map (fun x => x * x)).sum := by
  induction v with
  | nil => intro a; simp
  | cons x r ih =>
    intro a
    rw [List.foldl_cons, ih]
    simp [add_assoc]

theorem sumSq_eq (v : List ℝ) : sumSq v = (v.map (fun x => x * x)).sum := by
  unfold sumSq
  rw [foldl_sq_eq]
  simp

theorem sumSq_nonneg (v : List ℝ) : 0 ≤ sumSq v := by
  rw [sumSq_eq]
  apply List.sum_nonneg
  intro x hx
  rcases List.mem_map.mp hx with ⟨y, _, rfl⟩
  exact mul_self_nonneg y

theorem sumSq_cons (x : ℝ) (r : List ℝ) : sumSq (x :: r) = x * x + sumSq r := by
  rw [sumSq_eq, sumSq_eq, List.map_cons, List.sum_cons]

theorem sumSq_eq_zero_iff (v : List ℝ) : sumSq v = 0 ↔ ∀ x ∈ v, x = 0 := by
  induction v with
  | nil => simp [sumSq]
  | cons x r ih =>
    rw [sumSq_cons]
    constructor
    · intro h
      have hx : 0 ≤ x * x := mul_self_nonneg x
      have hr : 0 ≤ sumSq r := sumSq_nonneg r
      have hx0 : x * x = 0 := by linarith
      have hr0 : sumSq r = 0 := by linarith
      intro y hy
      rcases List.mem_cons.mp hy with rfl | hy
      · exact mul_self_eq_zero.mp hx0
      · exact (ih.mp hr0) y hy
    · intro h
      have hx : x = 0 := h x (List.mem_cons_self x r)
      have hr : sumSq r = 0 := ih.mpr (fun y hy => h y (List.mem_cons_of_mem _ hy))
      rw [hx, hr]
      ring

theorem sumSq_map_div (v : List ℝ) (n : ℝ) (hn : n ≠ 0) :
    sumSq (v.map (fun x => x / n)) = sumSq v / (n * n) := by
  induction v with
  | nil => simp [sumSq]
  | cons x r ih =>
    rw [List.map_cons, sumSq_cons, sumSq_cons, ih]
    field_simp

/-! ## Slice lemmas -/

theorem jsSliceTo_sublist {α : Type} (l : List α) (n : Int) :
    (jsSliceTo l n).Sublist l := by
  unfold jsSliceTo
  by_cases h : n < 0
  · rw [if_pos h]; exact List.take_sublist _ _
  · rw [if_neg h]; exact List.take_sublist _ _

theorem jsSliceTo_length {α : Type} (l : List α) (n : Int) :
    (jsSliceTo l n).length =
      if n < 0 then min (l.length + n).toNat l.length else min n.toNat l.length := by
  unfold jsSliceTo
  by_cases h : n < 0 <;> simp [h, List.length_take]

theorem jsSliceTo_length_le {α : Type} (l : List α) (n : Int) (hn : 0 ≤ n) :
    (jsSliceTo l n).length ≤ n.toNat := by
  rw [jsSliceTo_length, if_neg (not_lt.mpr hn)]
  exact min_le_left _ _

theorem jsSliceTo_zero {α : Type} (l : List α) : jsSliceTo l 0 = [] := by
  unfold jsSliceTo
  simp

/-! ## Further small lemmas about the ranking plumbing -/

/-- The length of a JS slice as a function of the list length. -/
def jsSliceLen (len : Nat) (n : Int) : Nat :=
  if n < 0 then min (len + n).toNat len else min n.toNat len

theorem jsSliceTo_length_eq {α : Type} (l : List α) (n : Int) :
    (jsSliceTo l n).length = jsSliceLen l.length n := by
  rw [jsSliceTo_length, jsSliceLen]

theorem length_sortScores (l : List (Nat × ℝ)) : (sortScores l).length = l.length :=
  List.length_insertionSort descScore l

theorem mem_sortScores {p : Nat × ℝ} {l : List (Nat × ℝ)} (h : p ∈ sortScores l) :
    p ∈ l :=
  ((List.perm_insertionSort descScore l).mem_iff).mp h

theorem scosine_nil_left (b : List (String × ℝ)) : scosine [] b = 0 := by
  unfold scosine
  rw [if_pos]
  left
  show Real.sqrt 0 = 0
  exact Real.sqrt_zero

theorem jsToFixed4_mono {x y : ℝ} (h : x ≤ y) : jsToFixed4 x ≤ jsToFixed4 y := by
  unfold jsToFixed4
  have hr : round (x * 10000) ≤ round (y * 10000) := by
    rw [round_eq, round_eq]
    exact Int.floor_mono (by linarith)
  have hc : ((round (x * 10000) : ℤ) : ℝ) ≤ ((round (y * 10000) : ℤ) : ℝ) := by
    exact_mod_cast hr
  linarith

theorem length_serverDocTfIdf (ms : List SMovie) :
    (serverDocTfIdf ms).length = ms.length := by
  unfold serverDocTfIdf
  rw [List.length_map]

/-! ## Concrete corpora used as witnesses and counterexamples -/

/-- One client movie whose only token is `"a"`. -/
def mcorp1 : List Movie := [⟨1, "a", "", []⟩]

/-- One client movie with two distinct tokens. -/
def mcorpAB : List Movie := [⟨1, "a b", "", []⟩]

/-- Two client movies with no tokens at all, ids out of order. -/
def mcorpTie : List Movie := [⟨5, "", "", []⟩, ⟨3, "", "", []⟩]

/-- One client movie carrying a genre tag. -/
def mcorpA : List Movie := [⟨1, "x", "", ["Action"]⟩]

/-- One server movie whose only token is `"hello"` (`"a"` would be removed
as a stop word by `serverTokenizeFiltered`). -/
def scorp1 : List SMovie := [⟨1, "hello", [], [], ""⟩]

/-- Three token-less server movies. -/
def scorp3 : List SMovie := [⟨1, "", [], [], ""⟩, ⟨2, "", [], [], ""⟩, ⟨3, "", [], [], ""⟩]

/-- A server movie whose genre tag `"Action"` also occurs as the word
`"action"` in the description. -/
def scorpAction : List SMovie := [⟨1, "", ["Action"], [], "action"⟩]

/-! ## Claim C9 — tokenizer totality on empty / null input -/

/-- Claim C9, counterexample: the claim says `tokenize` never fails, even
on null input; but script.js's `tokenize(null)` throws a `TypeError`
(`null.toLowerCase()` is an error), so the client tokenizer does fail on
null. -/
theorem c9_tokenize_null_throws :
    scriptTokenizeJS none = Except.error JsErr.typeError := rfl

/-- Claim C9 (amended): the server tokenizer returns the empty sequence on
null and on empty input without failing, and the client tokenizer returns
the empty sequence on the empty string and never fails on any string input
— but the client tokenizer is not null-safe. -/
theorem c9_tokenize_empty :
    serverTokenize none = [] ∧ serverTokenize (some "") = []
    ∧ scriptTokenizeJS (some "") = Except.ok []
    ∧ ∀ s : String, scriptTokenizeJS (some s) = Except.ok (scriptTokenize s) := by
  refine ⟨rfl, ?_, rfl, fun s => rfl⟩
  simp [serverTokenize]

/-! ## Claim C2 — unknown record identifier -/

/-- Claim C2, counterexample: the claim says ranking an unknown record id
fails with `NotFound`; in both implementations the lookup failure path
returns the ordinary empty list (`if (idx === -1) return []`), which is
indistinguishable from a successful empty result — there is no error
value at all. -/
theorem c2_unknown_id_returns_empty_list :
    recommendByMovieId mcorp1 999 5 = [] ∧ serverRecommendFor scorp1 999 5 = [] :=
  ⟨rfl, rfl⟩

/-- Claim C2 (amended): for every record identifier absent from the
corpus, both ranking-by-record functions return the empty list (no error
is raised; there is no `NotFound`). -/
theorem c2_unknown_id_empty (cm : List Movie) (sm : List SMovie) (id : Nat) (n : Int)
    (hc : ∀ m ∈ cm, m.id ≠ id) (hs : ∀ m ∈ sm, m.id ≠ id) :
    recommendByMovieId cm id n = [] ∧ serverRecommendFor sm id n = [] := by
  constructor
  · have hnone : cm.findIdx? (fun m => m.id = id) = none := by
      rw [List.findIdx?_eq_none_iff]
      intro m hm
      simpa using hc m hm
    simp only [recommendByMovieId, hnone]
  · have hnone : (serverDocTfIdf sm).findIdx? (fun d => d.id = id) = none := by
      rw [List.findIdx?_eq_none_iff]
      intro d hd
      unfold serverDocTfIdf at hd
      rcases List.mem_map.mp hd with ⟨m, hm, rfl⟩
      simpa using hs m hm
    simp only [serverRecommendFor, hnone]

/-- Claim C2, witness: the amended theorem applied to concrete corpora and
the unknown id 999. -/
theorem c2_unknown_id_empty_witness :
    recommendByMovieId mcorp1 999 5 = [] ∧ serverRecommendFor scorp1 999 5 = [] :=
  c2_unknown_id_empty mcorp1 scorp1 999 5 (by decide) (by decide)

/-! ## Claim C3 — truncation and negative topN -/

/-- Claim C3, counterexample: the claim says `topN ≤ 0` always yields an
empty list (negative values clamped to zero), but `slice(0, topN)` treats
a negative `topN` as an end-relative index: with three indexed records and
`topN = -1` the server returns one entry, not zero. -/
theorem c3_negative_topN_not_clamped : serverRecommendFor scorp3 1 (-1) ≠ [] := by
  have hidx : (serverDocTfIdf scorp3).findIdx? (fun d => d.id = 1) = some 0 := rfl
  intro hc
  have hlen := congrArg List.length hc
  simp only [serverRecommendFor, hidx] at hlen
  rw [List.length_map, jsSliceTo_length_eq, length_sortScores, List.length_map,
    length_serverDocTfIdf] at hlen
  have h2 : (List.filter (fun i => decide (i ≠ 0)) (List.range scorp3.length)).length = 2 := by
    decide
  rw [h2] at hlen
  have : jsSliceLen 2 (-1) = 1 := by decide
  rw [this] at hlen
  exact absurd hlen (by norm_num)

/-- Claim C3 (amended): for every `topN ≥ 0`, every ranking call returns
at most `topN` entries, and `topN = 0` yields the empty list.  (Negative
`topN` is not clamped — see the counterexample.) -/
theorem c3_truncation (cm : List Movie) (sm : List SMovie) (q : String)
    (idA idB : Nat) (n : Int) (hn : 0 ≤ n) :
    (recommendByMovieId cm idA n).length ≤ n.toNat
    ∧ (recommendByQuery cm q n).length ≤ n.toNat
    ∧ (serverRecommendFor sm idB n).length ≤ n.toNat
    ∧ (n = 0 → recommendByMovieId cm idA n = [] ∧ recommendByQuery cm q n = []
        ∧ serverRecommendFor sm idB n = []) := by
  have hslice : ∀ {α β : Type} (l : List α) (f : α → β),
      ((jsSliceTo l n).map f).length ≤ n.toNat := by
    intro α β l f
    rw [List.length_map]
    exact jsSliceTo_length_le l n hn
  have hzero : ∀ {α β : Type} (l : List α) (f : α → β),
      ((jsSliceTo l 0).map f) = [] := by
    intro α β l f
    rw [jsSliceTo_zero]
    rfl
  refine ⟨?_, ?_, ?_, ?_⟩
  · rcases hfi : cm.findIdx? (fun m => m.id = idA) with _ | idx <;>
      simp only [recommendByMovieId, hfi]
    · simp
    · exact hslice _ _
  · simp only [recommendByQuery]
    exact hslice _ _
  · rcases hfi : (serverDocTfIdf sm).findIdx? (fun d => d.id = idB) with _ | idx <;>
      simp only [serverRecommendFor, hfi]
    · simp
    · exact hslice _ _
  · rintro rfl
    refine ⟨?_, ?_, ?_⟩
    · rcases hfi : cm.findIdx? (fun m => m.id = idA) with _ | idx <;>
        simp only [recommendByMovieId, hfi]
      exact hzero _ _
    · simp only [recommendByQuery]
      exact hzero _ _
    · rcases hfi : (serverDocTfIdf sm).findIdx? (fun d => d.id = idB) with _ | idx <;>
        simp only [serverRecommendFor, hfi]
      exact hzero _ _

/-- Claim C3, witness: truncation applied to concrete corpora with
`topN = 2`. -/
theorem c3_truncation_witness :
    (recommendByMovieId mcorp1 1 2).length ≤ (2 : Int).toNat :=
  (c3_truncation mcorp1 scorp1 "" 1 1 2 (by norm_num)).1

/-! ## Claim C1 — self-exclusion when ranking by record -/

/-- Claim C1: script.js `recommendByMovieId` only demotes the source
record with the sentinel score `-1` (comment: "skip itself") instead of
removing it, so whenever `topN` reaches the corpus size the source record
itself is returned: on a one-movie corpus, `recommendByMovieId(1, 1)`
returns the movie with id 1 (score `-1`).  server.js `recommendFor`
really skips it with `continue`. -/
theorem c1_self_returned_eval :
    recommendByMovieId mcorp1 1 1 = [(1, (-1 : ℝ))] := rfl

/-! ## Claim C4 — all-zero query vector -/

/-- Claim C4, counterexample: the claim says an all-zero query vector
(e.g. the empty query) yields an empty result list; but script.js
`recommendByQuery` scores every movie (the zero-vector cosine is 0) and
never filters zero scores, so on a one-movie corpus the empty query
returns one entry, not zero. -/
theorem c4_zero_query_not_empty :
    queryToVector mcorp1 "" = [] ∧ recommendByQuery mcorp1 "" 5 ≠ [] := by
  refine ⟨rfl, ?_⟩
  intro hc
  have hlen := congrArg List.length hc
  simp only [recommendByQuery] at hlen
  rw [List.length_map, jsSliceTo_length_eq, length_sortScores, List.length_map,
    List.length_range] at hlen
  have h1 : jsSliceLen mcorp1.length 5 = 1 := by decide
  rw [h1] at hlen
  exact absurd hlen (by norm_num)

/-- Claim C4 (amended): a query whose vectorization is the all-zero
(empty) vector is not an error, but it does not yield an empty list
either: every indexed record is returned (up to `topN`), each with
score 0. -/
theorem c4_zero_query_scores (cm : List Movie) (q : String) (n : Int)
    (hq : queryToVector cm q = []) :
    (recommendByQuery cm q n).length = jsSliceLen cm.length n
    ∧ ∀ p ∈ recommendByQuery cm q n, p.2 = 0 := by
  constructor
  · simp only [recommendByQuery]
    rw [List.length_map, jsSliceTo_length_eq, length_sortScores, List.length_map,
      List.length_range]
  · intro p hp
    simp only [recommendByQuery] at hp
    rcases List.mem_map.mp hp with ⟨s, hs, rfl⟩
    have hs2 : s ∈ sortScores ((List.range cm.length).map (fun i =>
        (i, scosine (queryToVector cm q) (movieFeatureVector cm i)))) :=
      (jsSliceTo_sublist _ _).subset hs
    have hs3 := mem_sortScores hs2
    rcases List.mem_map.mp hs3 with ⟨i, _, rfl⟩
    show scosine (queryToVector cm q) (movieFeatureVector cm i) = 0
    rw [hq]
    exact scosine_nil_left _

/-- Claim C4, witness: the amended theorem at the empty query over the
one-movie corpus. -/
theorem c4_zero_query_scores_witness :
    (recommendByQuery mcorp1 "" 5).length = jsSliceLen mcorp1.length 5 :=
  (c4_zero_query_scores mcorp1 "" 5 rfl).1

/-! ## Claim C6 — ranking order -/

/-- Claim C6, counterexample: the sort comparator only compares scores, so
equal scores keep their corpus order (the JS sort is stable) — they are
not re-ordered by ascending id.  With corpus ids `[5, 3]` (both score 0
for the empty query) the output is `[(5, 0), (3, 0)]`, violating the
claimed ascending-id tie-break. -/
theorem c6_tie_break_cx :
    recommendByQuery mcorpTie "" 2 = [(5, (0 : ℝ)), (3, 0)]
    ∧ ¬ List.Pairwise
        (fun a b : Nat × ℝ => b.2 < a.2 ∨ (a.2 = b.2 ∧ a.1 < b.1))
        (recommendByQuery mcorpTie "" 2) := by
  have hq : queryToVector mcorpTie "" = [] := rfl
  have hmain : recommendByQuery mcorpTie "" 2 = [(5, (0 : ℝ)), (3, 0)] := by
    simp only [recommendByQuery, hq, scosine_nil_left]
    have hr : (List.range mcorpTie.length).map (fun i => (i, (0 : ℝ)))
        = [(0, (0 : ℝ)), (1, 0)] := rfl
    rw [hr]
    have hsort : sortScores [(0, (0 : ℝ)), (1, 0)] = [(0, (0 : ℝ)), (1, 0)] := by
      unfold sortScores
      simp [List.insertionSort, List.orderedInsert, descScore]
    rw [hsort]
    rfl
  refine ⟨hmain, ?_⟩
  rw [hmain]
  intro hpw
  rcases List.pairwise_cons.mp hpw with ⟨h5, _⟩
  have h53 := h5 (3, 0) (List.mem_singleton.mpr rfl)
  rcases h53 with h | ⟨_, h⟩
  · exact absurd h (by norm_num)
  · exact absurd h (by norm_num)

/-- Claim C6 (amended): the output of all three ranking functions is
sorted by descending score (entries with equal scores keep their corpus
order, since the sort comparator only inspects scores and the sort is
stable). -/
theorem c6_sorted_desc (cm : List Movie) (sm : List SMovie) (q : String)
    (idA idB : Nat) (n : Int) :
    List.Pairwise (fun a b : Nat × ℝ => b.2 ≤ a.2) (recommendByMovieId cm idA n)
    ∧ List.Pairwise (fun a b : Nat × ℝ => b.2 ≤ a.2) (recommendByQuery cm q n)
    ∧ List.Pairwise (fun a b : Nat × ℝ => b.2 ≤ a.2) (serverRecommendFor sm idB n) := by
  have hbase : ∀ l : List (Nat × ℝ), List.Pairwise descScore (jsSliceTo (sortScores l) n) :=
    fun l => List.Pairwise.sublist (jsSliceTo_sublist (sortScores l) n)
      (List.sorted_insertionSort descScore l)
  refine ⟨?_, ?_, ?_⟩
  · rcases hfi : cm.findIdx? (fun m => m.id = idA) with _ | idx <;>
      simp only [recommendByMovieId, hfi]
    · simp
    · rw [List.pairwise_map]
      exact hbase _
  · simp only [recommendByQuery]
    rw [List.pairwise_map]
    exact hbase _
  · rcases hfi : (serverDocTfIdf sm).findIdx? (fun d => d.id = idB) with _ | idx <;>
      simp only [serverRecommendFor, hfi]
    · simp
    · rw [List.pairwise_map]
      exact (hbase _).imp (fun h => jsToFixed4_mono h)

/-! ## Document-frequency and idf positivity lemmas -/

theorem scriptDf_pos {ms : List Movie} {t : String} (h : t ∈ scriptVocab ms) :
    1 ≤ scriptDf ms t := by
  rcases mem_scriptVocab_iff.mp h with ⟨toks, hm, ht⟩
  unfold scriptDf
  have hmem : toks ∈ (scriptDocsTokens ms).filter (fun toks => t ∈ toks) := by
    rw [List.mem_filter]
    exact ⟨hm, by simpa using ht⟩
  exact Nat.succ_le_of_lt (List.length_pos.mpr (List.ne_nil_of_mem hmem))

theorem scriptDf_le (ms : List Movie) (t : String) : scriptDf ms t ≤ ms.length := by
  unfold scriptDf
  calc ((scriptDocsTokens ms).filter (fun toks => t ∈ toks)).length
      ≤ (scriptDocsTokens ms).length := List.length_filter_le _ _
    _ = ms.length := by unfold scriptDocsTokens; rw [List.length_map]

theorem serverDf_pos {ms : List SMovie} {t : String} (h : t ∈ serverVocabulary ms) :
    1 ≤ serverDf ms t := by
  rcases mem_serverVocabulary_iff.mp h with ⟨toks, hm, ht⟩
  unfold serverDf
  have hmem : toks ∈ (serverDocs ms).filter (fun toks => t ∈ toks) := by
    rw [List.mem_filter]
    exact ⟨hm, by simpa using ht⟩
  exact Nat.succ_le_of_lt (List.length_pos.mpr (List.ne_nil_of_mem hmem))

theorem serverDf_le (ms : List SMovie) (t : String) : serverDf ms t ≤ ms.length := by
  unfold serverDf
  calc ((serverDocs ms).filter (fun toks => t ∈ toks)).length
      ≤ (serverDocs ms).length := List.length_filter_le _ _
    _ = ms.length := by unfold serverDocs; rw [List.length_map]

/-- The client idf is at least 1 (hence truthy) on every vocabulary
term: the argument of the log is `(N+1)/(df+1) ≥ 1`. -/
theorem scriptIdfVal_pos {ms : List Movie} {t : String} (h : t ∈ scriptVocab ms) :
    0 < scriptIdfVal ms t := by
  unfold scriptIdfVal
  have hdfN : scriptDf ms t ≤ (scriptDocsTokens ms).length := by
    unfold scriptDf
    exact List.length_filter_le _ _
  have hcast : (scriptDf ms t : ℝ) ≤ ((scriptDocsTokens ms).length : ℝ) :=
    Nat.cast_le.mpr hdfN
  have harg : (1 : ℝ) ≤ (((scriptDocsTokens ms).length : ℝ) + 1) / ((scriptDf ms t : ℝ) + 1) := by
    rw [le_div_iff (by positivity)]
    linarith
  have hlog := Real.log_nonneg harg
  linarith

/-- The server idf is positive on every vocabulary term:
`N/(1+df) ≥ 1/2` (since `1 ≤ df ≤ N`), and `log (1/2) = -log 2 > -1`. -/
theorem serverIdfVal_pos {ms : List SMovie} {t : String} (h : t ∈ serverVocabulary ms) :
    0 < serverIdfVal ms t := by
  unfold serverIdfVal
  have hdf1 : 1 ≤ serverDf ms t := serverDf_pos h
  have hdfN : serverDf ms t ≤ ms.length := serverDf_le ms t
  have hN1 : 1 ≤ ms.length := le_trans hdf1 hdfN
  have hc1 : (1 : ℝ) ≤ (serverDf ms t : ℝ) := by exact_mod_cast hdf1
  have hcN : (serverDf ms t : ℝ) ≤ (ms.length : ℝ) := by exact_mod_cast hdfN
  have hcR : (1 : ℝ) ≤ (ms.length : ℝ) := by exact_mod_cast hN1
  have harg : (1 : ℝ) / 2 ≤ (ms.length : ℝ) / (1 + (serverDf ms t : ℝ)) := by
    rw [div_le_div_iff (by norm_num) (by positivity)]
    linarith
  have hlog := Real.log_le_log (by norm_num) harg
  have hhalf : Real.log ((1 : ℝ) / 2) = - Real.log 2 := by
    rw [one_div, Real.log_inv]
  have h2 : Real.log 2 < 1 := lt_trans Real.log_two_lt_d9 (by norm_num)
  rw [hhalf] at hlog
  linarith

/-! ## Query-vector truthiness lemmas -/

theorem keys_filterMap_subset {β γ : Type} (g : String × β → Option (String × γ))
    (hg : ∀ p q, g p = some q → q.1 = p.1) (l : List (String × β)) (t : String)
    (ht : t ∈ (l.filterMap g).map Prod.fst) : t ∈ l.map Prod.fst := by
  rcases List.mem_map.mp ht with ⟨q, hq, rfl⟩
  rcases List.mem_filterMap.mp hq with ⟨p, hp, hgp⟩
  rw [hg p q hgp]
  exact List.mem_map_of_mem _ hp

theorem isSome_alookup_filterMap {β γ : Type} (g : String × β → Option (String × γ))
    (hg : ∀ p q, g p = some q → q.1 = p.1) (t : String) :
    ∀ l : List (String × β), (l.map Prod.fst).Nodup →
      ((alookup t (l.filterMap g)).isSome ↔
        ∃ c, alookup t l = some c ∧ (g (t, c)).isSome) := by
  intro l
  induction l with
  | nil => intro _; simp [alookup]
  | cons p r ih =>
    intro hn
    rw [List.map_cons, List.nodup_cons] at hn
    have hlook : alookup t (p :: r) = if p.1 = t then some p.2 else alookup t r := rfl
    by_cases hp : p.1 = t
    · have hpt : (t, p.2) = p := by
        obtain ⟨a, b⟩ := p
        simp only at hp
        rw [hp]
      have hLr : alookup t (r.filterMap g) = none := by
        rw [alookup_eq_none_iff]
        intro hmem
        exact hn.1 (hp ▸ keys_filterMap_subset g hg r t hmem)
      rcases hgp : g p with _ | q
      · rw [List.filterMap_cons_none hgp, hLr]
        constructor
        · intro hfalse; simp at hfalse
        · rintro ⟨c, hc, hsome⟩
          rw [hlook, if_pos hp] at hc
          injection hc with hc
          subst hc
          rw [hpt, hgp] at hsome
          simp at hsome
      · have hq1 : q.1 = t := (hg p q hgp).trans hp
        rw [List.filterMap_cons_some hgp]
        constructor
        · intro _
          refine ⟨p.2, by rw [hlook, if_pos hp], ?_⟩
          rw [hpt, hgp]
          simp
        · intro _
          show (alookup t (q :: r.filterMap g)).isSome = true
          rw [show alookup t (q :: r.filterMap g) = some q.2 from by simp [alookup, hq1]]
          simp
    · rcases hgp : g p with _ | q
      · rw [List.filterMap_cons_none hgp, ih hn.2, hlook, if_neg hp]
      · have hq1 : ¬ (q.1 = t) := by
          rw [hg p q hgp]
          exact hp
        rw [List.filterMap_cons_some hgp]
        have : alookup t (q :: r.filterMap g) = alookup t (r.filterMap g) := by
          simp [alookup, hq1]
        rw [this, ih hn.2, hlook, if_neg hp]

theorem alookup_scriptIdfMap (ms : List Movie) (t : String) :
    alookup t (scriptIdfMap ms)
      = if t ∈ scriptVocab ms then some (scriptIdfVal ms t) else none :=
  alookup_graph _ t _

/-- The truthiness filter `if (idf[t])` of `queryToVector` keeps exactly
the vocabulary terms among the query's tokens. -/
theorem isSome_alookup_queryLexVec (ms : List Movie) (q t : String)
    (ht : t ∈ scriptTokenize q) :
    (alookup t (queryLexVec ms q)).isSome ↔ t ∈ scriptVocab ms := by
  have hg : ∀ (p : String × Nat) (r : String × ℝ),
      (match alookup p.1 (scriptIdfMap ms) with
        | none => none
        | some w =>
          if w = 0 then none
          else some (p.1, ((p.2 : ℝ) / ((scriptTokenize q).length : ℝ)) * w)) = some r →
      r.1 = p.1 := by
    intro p r h
    split at h
    · cases h
    · split at h
      · cases h
      · injection h with h
        subst h
        rfl
  unfold queryLexVec
  rw [isSome_alookup_filterMap _ hg t _ (keys_nodup_tfList _)]
  have hcnt : alookup t (tfList (scriptTokenize q)) = some ((scriptTokenize q).count t) := by
    rw [alookup_tfList, if_pos ht]
  constructor
  · rintro ⟨c, hc, hsome⟩
    dsimp only at hsome
    rcases hv : alookup t (scriptIdfMap ms) with _ | w
    · rw [hv] at hsome
      simp at hsome
    · rw [alookup_scriptIdfMap] at hv
      by_cases hmem : t ∈ scriptVocab ms
      · exact hmem
      · rw [if_neg hmem] at hv
        cases hv
  · intro hmem
    refine ⟨(scriptTokenize q).count t, hcnt, ?_⟩
    have hv : alookup t (scriptIdfMap ms) = some (scriptIdfVal ms t) := by
      rw [alookup_scriptIdfMap, if_pos hmem]
    simp [hv, ne_of_gt (scriptIdfVal_pos hmem)]

/-! ## Claim C10 — df bounds, strictly positive idf, exact truthiness -/

/-- Claim C10: every vocabulary term has document frequency between 1 and
the corpus size, its idf weight is strictly positive in both builds, and
consequently the truthiness test `if (idf[t])` during query vectorization
keeps exactly the in-vocabulary query terms. -/
theorem c10_idf_positive (cm : List Movie) (sm : List SMovie) (t : String) (q : String) :
    (t ∈ scriptVocab cm →
      1 ≤ scriptDf cm t ∧ scriptDf cm t ≤ cm.length ∧ 0 < scriptIdfVal cm t)
    ∧ (t ∈ serverVocabulary sm →
      1 ≤ serverDf sm t ∧ serverDf sm t ≤ sm.length ∧ 0 < serverIdfVal sm t)
    ∧ (t ∈ scriptTokenize q →
      ((alookup t (queryLexVec cm q)).isSome ↔ t ∈ scriptVocab cm)) := by
  refine ⟨fun h => ⟨scriptDf_pos h, scriptDf_le cm t, scriptIdfVal_pos h⟩,
    fun h => ⟨serverDf_pos h, serverDf_le sm t, serverIdfVal_pos h⟩,
    fun h => isSome_alookup_queryLexVec cm q t h⟩

/-- Claim C10, witness: the theorem applied to concrete corpora and terms. -/
theorem c10_idf_positive_witness :
    0 < scriptIdfVal mcorp1 "a" ∧ 0 < serverIdfVal scorp1 "hello"
    ∧ ((alookup "a" (queryLexVec mcorp1 "a")).isSome ↔ "a" ∈ scriptVocab mcorp1) :=
  ⟨((c10_idf_positive mcorp1 scorp1 "a" "a").1 (by decide)).2.2,
   ((c10_idf_positive mcorp1 scorp1 "hello" "a").2.1 (by decide)).2.2,
   (c10_idf_positive mcorp1 scorp1 "a" "a").2.2 (by decide)⟩

/-! ## Claim C7 — normalization invariant -/

/-- The server normalization step (`norm = Math.sqrt(norm) || 1` then
component-wise division) maps every vector to the zero vector or to a
unit vector. -/
theorem normalize_zero_or_unit (pre : List ℝ) :
    (∀ x ∈ pre.map
        (fun x => x / (if Real.sqrt (sumSq pre) = 0 then 1 else Real.sqrt (sumSq pre))), x = 0)
    ∨ Real.sqrt (sumSq (pre.map
        (fun x => x / (if Real.sqrt (sumSq pre) = 0 then 1 else Real.sqrt (sumSq pre))))) = 1 := by
  have hs0 : 0 ≤ sumSq pre := sumSq_nonneg pre
  by_cases hn : Real.sqrt (sumSq pre) = 0
  · left
    have hsz : sumSq pre = 0 := (Real.sqrt_eq_zero hs0).mp hn
    have hall : ∀ x ∈ pre, x = 0 := (sumSq_eq_zero_iff pre).mp hsz
    intro x hx
    rw [if_pos hn] at hx
    rcases List.mem_map.mp hx with ⟨y, hy, rfl⟩
    rw [hall y hy]
    simp
  · right
    rw [if_neg hn]
    have hsne : sumSq pre ≠ 0 := fun h => hn (by rw [h]; exact Real.sqrt_zero)
    rw [sumSq_map_div _ _ hn, Real.mul_self_sqrt hs0, div_self hsne]
    exact Real.sqrt_one

/-- Claim C7 (amended): every vector stored in the server index snapshot
(`docTfIdf`) is the zero vector or has Euclidean norm 1 (the `|| 1` guard
avoids the division by zero); the client's stored `tfidfVectors` are raw
tf-idf maps and satisfy no such invariant (see the counterexample). -/
theorem c7_server_normalized (ms : List SMovie) (i : Nat) :
    (∀ x ∈ ((serverDocTfIdf ms).getD i ⟨0, [], 1⟩).vec, x = 0)
    ∨ Real.sqrt (sumSq ((serverDocTfIdf ms).getD i ⟨0, [], 1⟩).vec) = 1 := by
  by_cases hi : i < (serverDocTfIdf ms).length
  · rw [List.getD_eq_getElem _ _ hi]
    have hlen : i < ms.length := by
      rwa [length_serverDocTfIdf] at hi
    unfold serverDocTfIdf
    rw [List.getElem_map]
    exact normalize_zero_or_unit _
  · rw [List.getD_eq_default _ _ (le_of_not_lt hi)]
    left
    intro x hx
    cases hx

/-- Claim C7, witness: the server theorem at the one-movie corpus. -/
theorem c7_server_normalized_witness :
    (∀ x ∈ ((serverDocTfIdf scorp1).getD 0 ⟨0, [], 1⟩).vec, x = 0)
    ∨ Real.sqrt (sumSq ((serverDocTfIdf scorp1).getD 0 ⟨0, [], 1⟩).vec) = 1 :=
  c7_server_normalized scorp1 0

/-- Claim C7, counterexample: the client stores its tf-idf vectors without
any normalization.  For the one-movie corpus with tokens `["a", "b"]`
(`N = 1`, `df = 1`, so idf `= ln(2/2) + 1 = 1` and each weight is `1/2`)
the stored vector is `[("a", 1/2), ("b", 1/2)]`: it is not the zero
vector and its Euclidean norm is `√(1/2) ≠ 1`. -/
theorem c7_client_not_normalized :
    snorm ((scriptTfidfVectors mcorpAB).getD 0 []) ≠ 1
    ∧ ¬ (∀ p ∈ (scriptTfidfVectors mcorpAB).getD 0 [], p.2 = 0) := by
  have hdfa : scriptDf mcorpAB "a" = 1 := rfl
  have hdfb : scriptDf mcorpAB "b" = 1 := rfl
  have hN : (scriptDocsTokens mcorpAB).length = 1 := rfl
  have hidfa : scriptIdfVal mcorpAB "a" = 1 := by
    unfold scriptIdfVal
    rw [hdfa, hN]
    norm_num [Real.log_one]
  have hidfb : scriptIdfVal mcorpAB "b" = 1 := by
    unfold scriptIdfVal
    rw [hdfb, hN]
    norm_num [Real.log_one]
  have hva : alookup "a" (scriptIdfMap mcorpAB) = some (scriptIdfVal mcorpAB "a") := by
    rw [alookup_scriptIdfMap, if_pos (by decide)]
  have hvb : alookup "b" (scriptIdfMap mcorpAB) = some (scriptIdfVal mcorpAB "b") := by
    rw [alookup_scriptIdfMap, if_pos (by decide)]
  have hv : (scriptTfidfVectors mcorpAB).getD 0 []
      = [("a", (1 : ℝ) / 2), ("b", (1 : ℝ) / 2)] := by
    simp only [scriptTfidfVectors,
      show scriptDocsTokens mcorpAB = [["a", "b"]] from rfl,
      show tfList ["a", "b"] = [("a", 1), ("b", 1)] from rfl,
      List.map_cons, List.map_nil, List.getD_cons_zero]
    norm_num [hva, hvb, hidfa, hidfb]
  constructor
  · rw [hv]
    unfold snorm
    simp only [List.foldl_cons, List.foldl_nil]
    rw [Ne, Real.sqrt_eq_one]
    norm_num
  · rw [hv]
    intro hall
    have := hall ("a", (1 : ℝ) / 2) (List.mem_cons_self _ _)
    norm_num at this

/-! ## Claim C5 — the tf-idf weight formula -/

/-- Positions not written by any `tf` entry keep their value during the
server's dense-vector fill loop. -/
theorem serverPreVec_getD_untouched (ms : List SMovie) (i : Nat) :
    ∀ (tf : List (String × Nat)) (v : List ℝ),
      (∀ p ∈ tf, p.1 ∈ serverVocabulary ms → List.indexOf p.1 (serverVocabulary ms) ≠ i) →
      ((tf.foldl (fun v p =>
          if p.1 ∈ serverVocabulary ms then
            v.set ((serverVocabulary ms).indexOf p.1)
              ((1 + Real.log (p.2 : ℝ))
                * ((serverIdf ms).getD ((serverVocabulary ms).indexOf p.1) 0))
          else v) v).getD i 0) = v.getD i 0 := by
  intro tf
  induction tf with
  | nil => intro v _; rfl
  | cons p r ih =>
    intro v hp
    rw [List.foldl_cons]
    rw [ih _ (fun q hq => hp q (List.mem_cons_of_mem _ hq))]
    by_cases hmem : p.1 ∈ serverVocabulary ms
    · rw [if_pos hmem]
      have hne := hp p (List.mem_cons_self _ _) hmem
      rw [List.getD_eq_getElem?_getD, List.getElem?_set_ne hne,
        ← List.getD_eq_getElem?_getD]
    · rw [if_neg hmem]

/-- The position of a written `tf` entry holds `(1 + ln count) * idf` after
the server's dense-vector fill loop. -/
theorem serverPreVec_getD_written (ms : List SMovie) :
    ∀ (tf : List (String × Nat)) (v : List ℝ) (t : String) (c : Nat),
      (tf.map Prod.fst).Nodup → (t, c) ∈ tf → t ∈ serverVocabulary ms →
      v.length = (serverVocabulary ms).length →
      ((tf.foldl (fun v p =>
          if p.1 ∈ serverVocabulary ms then
            v.set ((serverVocabulary ms).indexOf p.1)
              ((1 + Real.log (p.2 : ℝ))
                * ((serverIdf ms).getD ((serverVocabulary ms).indexOf p.1) 0))
          else v) v).getD (List.indexOf t (serverVocabulary ms)) 0)
        = (1 + Real.log (c : ℝ))
          * ((serverIdf ms).getD (List.indexOf t (serverVocabulary ms)) 0) := by
  intro tf
  induction tf with
  | nil =>
    intro v t c _ h
    cases h
  | cons p r ih =>
    intro v t c hn hmem hvocab hlen
    rw [List.map_cons, List.nodup_cons] at hn
    rcases List.mem_cons.mp hmem with heq | hmem'
    · have hp1 : p = (t, c) := heq.symm
      subst hp1
      rw [List.foldl_cons]
      dsimp only
      rw [if_pos hvocab]
      rw [serverPreVec_getD_untouched ms _ r _ ?_]
      · have hidx : List.indexOf t (serverVocabulary ms) < v.length := by
          rw [hlen]
          exact List.indexOf_lt_length.mpr hvocab
        rw [List.getD_eq_getElem?_getD, List.getElem?_set_self hidx, Option.getD_some]
      · intro q hq hqv he
        have hq1 : q.1 = t := (List.indexOf_inj hqv hvocab).mp he
        have hkeys : q.1 ∈ r.map Prod.fst := List.mem_map_of_mem Prod.fst hq
        rw [hq1] at hkeys
        exact hn.1 hkeys
    · rw [List.foldl_cons]
      apply ih _ t c hn.2 hmem' hvocab
      dsimp only
      by_cases hm : p.1 ∈ serverVocabulary ms
      · rw [if_pos hm, List.length_set]
        exact hlen
      · rw [if_neg hm]
        exact hlen

/-- The pre-normalization weight of a document term in the server build. -/
theorem serverPreVec_weight (ms : List SMovie) (toks : List String) (t : String)
    (ht : t ∈ toks) (hv : t ∈ serverVocabulary ms) :
    (serverPreVec ms toks).getD (List.indexOf t (serverVocabulary ms)) 0
      = (1 + Real.log ((toks.count t : ℕ) : ℝ))
        * ((serverIdf ms).getD (List.indexOf t (serverVocabulary ms)) 0) := by
  unfold serverPreVec
  have hmem : (t, toks.count t) ∈ tfList toks := mem_tfList_iff.mpr ⟨ht, rfl⟩
  exact serverPreVec_getD_written ms (tfList toks) _ t (toks.count t)
    (keys_nodup_tfList toks) hmem hv (List.length_replicate _ _)

/-- The idf array holds `serverIdfVal` at the position of each vocabulary
term. -/
theorem serverIdf_getD (ms : List SMovie) (t : String) (hv : t ∈ serverVocabulary ms) :
    (serverIdf ms).getD (List.indexOf t (serverVocabulary ms)) 0 = serverIdfVal ms t := by
  unfold serverIdf
  have hidx : List.indexOf t (serverVocabulary ms) < (serverVocabulary ms).length :=
    List.indexOf_lt_length.mpr hv
  rw [List.getD_eq_getElem?_getD, List.getElem?_map, List.getElem?_eq_getElem hidx]
  simp only [Option.map_some', Option.getD_some]
  rw [List.getElem_indexOf hidx]

/-- Claim C5 (amended): in the SERVER index build (`buildIndex` of
server.js) the pre-normalization lexical weight of a vocabulary term
occurring `count ≥ 1` times in a document equals
`(1 + ln count) × (ln (N / (1 + df)) + 1)` — exactly the claimed formula.
The CLIENT build (`computeTfidfVectors` of script.js) uses
`(count / docLen) × (ln ((N+1) / (df+1)) + 1)` instead — see the
counterexample. -/
theorem c5_server_weight (ms : List SMovie) (m : SMovie) (t : String)
    (hm : m ∈ ms) (ht : t ∈ serverTokenizeFiltered (some (serverDocText m))) :
    (serverPreVec ms (serverTokenizeFiltered (some (serverDocText m)))).getD
        (List.indexOf t (serverVocabulary ms)) 0
      = (1 + Real.log (((serverTokenizeFiltered (some (serverDocText m))).count t : ℕ) : ℝ))
        * (Real.log ((ms.length : ℝ) / (1 + (serverDf ms t : ℝ))) + 1) := by
  have hvocab : t ∈ serverVocabulary ms := by
    rw [mem_serverVocabulary_iff]
    refine ⟨serverTokenizeFiltered (some (serverDocText m)), ?_, ht⟩
    unfold serverDocs
    exact List.mem_map_of_mem _ hm
  rw [serverPreVec_weight ms _ t ht hvocab, serverIdf_getD ms t hvocab]
  rfl

/-- Claim C5, witness: the server weight formula evaluated on the
one-movie corpus at the term `"hello"`. -/
theorem c5_server_weight_witness :
    (serverPreVec scorp1 (serverTokenizeFiltered (some (serverDocText ⟨1, "hello", [], [], ""⟩)))).getD
        (List.indexOf "hello" (serverVocabulary scorp1)) 0
      = (1 + Real.log (((serverTokenizeFiltered
            (some (serverDocText ⟨1, "hello", [], [], ""⟩))).count "hello" : ℕ) : ℝ))
        * (Real.log ((scorp1.length : ℝ) / (1 + (serverDf scorp1 "hello" : ℝ))) + 1) :=
  c5_server_weight scorp1 ⟨1, "hello", [], [], ""⟩ "hello" (by decide) (by decide)

/-- Claim C5, counterexample: the CLIENT weight of the term `"a"` in the
one-movie corpus is `(1/1) × (ln((1+1)/(1+1)) + 1) = 1`, whereas the
claimed formula gives `(1 + ln 1) × (ln(1/(1+1)) + 1) = 1 - ln 2 ≠ 1`:
the client uses raw `count/len` (not `1 + ln count`) and the smoothed idf
`ln((N+1)/(df+1)) + 1` (not `ln(N/(1+df)) + 1`). -/
theorem c5_client_weight_differs :
    (alookup "a" ((scriptTfidfVectors mcorp1).getD 0 [])).getD 0 = 1
    ∧ ((alookup "a" ((scriptTfidfVectors mcorp1).getD 0 [])).getD 0 : ℝ)
      ≠ (1 + Real.log ((1 : ℕ) : ℝ))
        * (Real.log ((mcorp1.length : ℝ) / (1 + (scriptDf mcorp1 "a" : ℝ))) + 1) := by
  have hdfa : scriptDf mcorp1 "a" = 1 := rfl
  have hN : (scriptDocsTokens mcorp1).length = 1 := rfl
  have hidfa : scriptIdfVal mcorp1 "a" = 1 := by
    unfold scriptIdfVal
    rw [hdfa, hN]
    norm_num [Real.log_one]
  have hva : alookup "a" (scriptIdfMap mcorp1) = some (scriptIdfVal mcorp1 "a") := by
    rw [alookup_scriptIdfMap, if_pos (by decide)]
  have hv : (scriptTfidfVectors mcorp1).getD 0 [] = [("a", (1 : ℝ))] := by
    simp only [scriptTfidfVectors,
      show scriptDocsTokens mcorp1 = [["a"]] from rfl,
      show tfList ["a"] = [("a", 1)] from rfl,
      List.map_cons, List.map_nil, List.getD_cons_zero]
    norm_num [hva, hidfa]
  have hlook : (alookup "a" ((scriptTfidfVectors mcorp1).getD 0 [])).getD 0 = 1 := by
    rw [hv]
    simp [alookup]
  refine ⟨hlook, ?_⟩
  rw [hlook, hdfa, show mcorp1.length = 1 from rfl]
  have h2 : 0 < Real.log 2 := Real.log_pos (by norm_num)
  have harg : ((1 : ℕ) : ℝ) / (1 + ((1 : ℕ) : ℝ)) = (2 : ℝ)⁻¹ := by
    norm_num
  rw [harg, Real.log_inv]
  simp only [Nat.cast_one, Real.log_one]
  intro hcontra
  nlinarith [h2]

/-! ## Claim C8 — genre dimensions -/

/-- Claim C8, counterexample: the server folds the genre strings into the
document text before tokenizing, so the tag `"Action"` produces the very
same term `"action"` as the word `"action"` in the description: the
document `{genres: ["Action"], desc: "action"}` tokenizes to
`["action", "action"]` and the vocabulary has the single shared dimension
`"action"` — no disjoint genre namespace and no fixed weight `G` on the
server. -/
theorem c8_server_genre_shares_dimension :
    serverDocs scorpAction = [["action", "action"]]
    ∧ serverVocabulary scorpAction = ["action"] := by
  constructor
  · decide
  · decide

theorem genreKey_lower_eq {g g' : String} (h : genreKey g' = genreKey g) :
    lowerStr g' = lowerStr g := by
  have hd := congrArg String.data h
  unfold genreKey at hd
  have := List.append_cancel_left hd
  unfold lowerStr
  exact congrArg String.mk this

/-- Genre keys absent from the map are left alone by the genre fold of
other genres. -/
theorem alookup_genre_fold_untouched (k : String) (gs : List String) :
    ∀ v : List (String × ℝ), (∀ g' ∈ gs, genreKey g' ≠ k) →
      alookup k (gs.foldl (fun v g' => bump v (genreKey g') genreWeight) v)
        = alookup k v := by
  induction gs with
  | nil => intro v _; rfl
  | cons a r ih =>
    intro v h
    rw [List.foldl_cons, ih _ (fun q hq => h q (List.mem_cons_of_mem _ hq))]
    rw [alookup_bump, if_neg (h a (List.mem_cons_self _ _))]

/-- A genre of the movie ends up with exactly weight `genreWeight` on its
dedicated dimension, provided the (lower-cased) genre list has no
duplicates and the base vector does not contain the key. -/
theorem alookup_genre_fold (gs : List String) :
    ∀ (v : List (String × ℝ)) (g : String),
      (gs.map lowerStr).Nodup → g ∈ gs → alookup (genreKey g) v = none →
      alookup (genreKey g) (gs.foldl (fun v g' => bump v (genreKey g') genreWeight) v)
        = some genreWeight := by
  induction gs with
  | nil =>
    intro v g _ h
    cases h
  | cons a r ih =>
    intro v g hn hg hv
    rw [List.map_cons, List.nodup_cons] at hn
    rw [List.foldl_cons]
    rcases List.mem_cons.mp hg with rfl | hg'
    · have huntouched : ∀ g' ∈ r, genreKey g' ≠ genreKey g := by
        intro g' hg' he
        have hl := genreKey_lower_eq he
        have : lowerStr g ∈ r.map lowerStr := by
          rw [← hl]
          exact List.mem_map_of_mem lowerStr hg'
        exact hn.1 this
      rw [alookup_genre_fold_untouched _ r _ huntouched]
      rw [alookup_bump, if_pos rfl, hv]
      simp
    · apply ih _ g hn.2 hg'
      have hne : genreKey a ≠ genreKey g := by
        intro he
        have hl := genreKey_lower_eq he
        have : lowerStr a ∈ r.map lowerStr := by
          rw [hl]
          exact List.mem_map_of_mem lowerStr hg'
        exact hn.1 this
      rw [alookup_bump, if_neg hne]
      exact hv

/-- Keys of a stored client tf-idf vector are tokens of the corresponding
document. -/
theorem keys_scriptTfidf_are_tokens {cm : List Movie} {i : Nat} {k : String}
    (hk : k ∈ ((scriptTfidfVectors cm).getD i []).map Prod.fst) :
    ∃ toks ∈ scriptDocsTokens cm, k ∈ toks := by
  by_cases hi : i < (scriptTfidfVectors cm).length
  · rw [List.getD_eq_getElem _ _ hi] at hk
    have hlen : i < (scriptDocsTokens cm).length := by
      unfold scriptTfidfVectors at hi
      rwa [List.length_map] at hi
    unfold scriptTfidfVectors at hk
    rw [List.getElem_map] at hk
    rw [List.map_map] at hk
    rcases List.mem_map.mp hk with ⟨p, hp, rfl⟩
    refine ⟨(scriptDocsTokens cm)[i], List.getElem_mem _, ?_⟩
    have := mem_tfList_iff.mp hp
    exact this.1
  · rw [List.getD_eq_default _ _ (le_of_not_lt hi)] at hk
    cases hk

/-- A genre key never occurs among the lexical keys of a stored client
vector (tokens are nonempty runs of `[a-z0-9]`, genre keys start with an
underscore). -/
theorem genreKey_not_in_tfidf (cm : List Movie) (i : Nat) (g : String) :
    alookup (genreKey g) ((scriptTfidfVectors cm).getD i []) = none := by
  rw [alookup_eq_none_iff]
  intro hmem
  rcases keys_scriptTfidf_are_tokens hmem with ⟨toks, htoks, hk⟩
  unfold scriptDocsTokens at htoks
  rcases List.mem_map.mp htoks with ⟨m, _, rfl⟩
  rcases scriptTokenize_sound hk with ⟨hne, hch⟩
  exact token_ne_genreKey hne hch g rfl

/-- Claim C8 (amended): in the CLIENT build each genre `g` of a movie
contributes the fixed weight `genreWeight = 1.2` to the dedicated
dimension `"__genre__" ++ lowercase g`, and that namespace is disjoint
from every lexical dimension (a tag `"Action"` can never collide with the
word `"action"`).  The SERVER build has no genre namespace at all — see
the counterexample. -/
theorem c8_client_genre_dimension (cm : List Movie) (i : Nat) (g : String) :
    alookup (genreKey g) ((scriptTfidfVectors cm).getD i []) = none
    ∧ (((cm.getD i defaultMovie).genres.map lowerStr).Nodup →
        g ∈ (cm.getD i defaultMovie).genres →
        alookup (genreKey g) (movieFeatureVector cm i) = some genreWeight) := by
  refine ⟨genreKey_not_in_tfidf cm i g, fun hnd hg => ?_⟩
  unfold movieFeatureVector
  exact alookup_genre_fold _ _ g hnd hg (genreKey_not_in_tfidf cm i g)

/-- Claim C8, witness: the movie `{title: "x", genres: ["Action"]}` gets
weight 1.2 on the dimension `"__genre__action"`. -/
theorem c8_client_genre_dimension_witness :
    alookup (genreKey "Action") (movieFeatureVector mcorpA 0) = some genreWeight :=
  (c8_client_genre_dimension mcorpA 0 "Action").2 (by decide) (by decide)
